import Mathlib

/-!
Verification of the core of mulping.py: a batch ping / relay selection
utility.  The Python source is embedded shallowly: relay records (Python
dicts of JSON values) become association lists over an inductive value
type, the predicate combinators become Boolean functions, the cache layer
becomes explicit state passing over an optional file content, and the
platform-specific ping-output parser becomes a total function returning
Except (an uncaught Python exception is an error value, a caught one is
the null triple, as in the source).
-/

namespace Mulping

/-- JSON-style values stored in a relay record.  Python ints and floats are
both modelled as Rat, mirroring Python numeric equality (1 == 1.0). -/
inductive Value where
  | str : String → Value
  | bool : Bool → Value
  | num : Rat → Value
  | null : Value
deriving DecidableEq

/-- A relay record: a Python dict mapping attribute names to values,
modelled as an association list with unique keys (dict insertion order). -/
abbrev Relay := List (String × Value)

/-- Dict membership plus lookup: models the pattern `a in r` / `r[a]`. -/
def lookupAttr : Relay → String → Option Value
  | [], _ => none
  | p :: rest, a => if p.1 == a then some p.2 else lookupAttr rest a

/-- Dict assignment `r[a] = v`: replaces the value of an existing key in
place, otherwise appends the new key at the end (insertion order). -/
def setAttr : Relay → String → Value → Relay
  | [], a, v => [(a, v)]
  | p :: rest, a, v => if p.1 == a then (a, v) :: rest else p :: setAttr rest a v

/-- Attribute-name constant HOSTNAME from the source. -/
def HOSTNAME : String := "hostname"

/-- Attribute-name constant TYPE from the source. -/
def TYPE : String := "type"

/-- Attribute-name constant ACTIVE from the source. -/
def ACTIVE : String := "active"

/-- Attribute-name constant COUNTRY_CODE from the source. -/
def COUNTRY_CODE : String := "country_code"

/-- Attribute-name constant CITY_CODE from the source. -/
def CITY_CODE : String := "city_code"

/-- Attribute-name constant PROVIDER from the source. -/
def PROVIDER : String := "provider"

/-- Attribute-name constant BANDWIDTH from the source. -/
def BANDWIDTH : String := "network_port_speed"

/-- Attribute-name constant RTT from the source. -/
def RTT : String := "round_trip_time"

/-- Python `<` restricted to the same-type cases that occur in the source
(numbers for latencies and bandwidth; strings and booleans for
completeness).  A mixed-type comparison raises TypeError in Python and
never occurs in the source; it is mapped to false here. -/
def Value.ltB : Value → Value → Bool
  | .num x, .num y => decide (x < y)
  | .str x, .str y => decide (x < y)
  | .bool x, .bool y => !x && y
  | _, _ => false

/-- Python `<=`, same conventions as Value.ltB. -/
def Value.leB : Value → Value → Bool
  | .num x, .num y => decide (x ≤ y)
  | .str x, .str y => decide (x ≤ y)
  | .bool x, .bool y => !x || y
  | _, _ => false

/-- Python `>`, same conventions as Value.ltB. -/
def Value.gtB (v w : Value) : Bool := Value.ltB w v

/-- Python `>=`, same conventions as Value.ltB. -/
def Value.geB (v w : Value) : Bool := Value.leB w v

/-- eqAttr from the source: `lambda r: a in r and r[a] == v`. -/
def eqAttr (a : String) (v : Value) (r : Relay) : Bool :=
  match lookupAttr r a with
  | some w => w == v
  | none => false

/-- neqAttr from the source: `lambda r: a in r and r[a] != v`. -/
def neqAttr (a : String) (v : Value) (r : Relay) : Bool :=
  match lookupAttr r a with
  | some w => w != v
  | none => false

/-- geqAttr from the source: `lambda r: a in r and r[a] >= v`. -/
def geqAttr (a : String) (v : Value) (r : Relay) : Bool :=
  match lookupAttr r a with
  | some w => Value.geB w v
  | none => false

/-- filterOr from the source: `lambda r: any(f(r) for f in filters)`. -/
def filterOr (fs : List (Relay → Bool)) (r : Relay) : Bool :=
  fs.any (fun f => f r)

/-- filterAnd from the source: `lambda r: all(f(r) for f in filters)`. -/
def filterAnd (fs : List (Relay → Bool)) (r : Relay) : Bool :=
  fs.all (fun f => f r)

/-- getFilter from the source: maps the per-value constructor over the
user-supplied list, aggregates with the given combinator, and appends the
aggregate to the running condition list. -/
def getFilter {α : Type} (source : List α) (getSubFilter : α → (Relay → Bool))
    (aggregator : List (Relay → Bool) → (Relay → Bool))
    (filters : List (Relay → Bool)) : List (Relay → Bool) :=
  filters ++ [aggregator (source.map getSubFilter)]

/-- inCity from the source main block: conjunction of the two equality
predicates for the (country_code, city_code) pair. -/
def inCity (ct : String × String) (r : Relay) : Bool :=
  eqAttr COUNTRY_CODE (Value.str ct.1) r && eqAttr CITY_CODE (Value.str ct.2) r

/-- notInCity from the source main block: the negation of the conjunction
of the two equality predicates for the (country_code, city_code) pair. -/
def notInCity (ct : String × String) (r : Relay) : Bool :=
  !(eqAttr COUNTRY_CODE (Value.str ct.1) r && eqAttr CITY_CODE (Value.str ct.2) r)

/-- Elements of the JSON array held by the cache artifact.  The array
written by fetchRelays is a timestamp followed by relay objects; num
covers every JSON value accepted by the isinstance((float, int)) check of
loadRelays (Python booleans, being ints, would appear here as 0 or 1),
rec covers relay record objects, and other covers any remaining JSON
value, which that check rejects. -/
inductive CacheEntry where
  | num : Rat → CacheEntry
  | record : Relay → CacheEntry
  | other : CacheEntry
deriving DecidableEq

/-- fetchRelays from the source, after the HTTP request has decoded the
JSON array: inserts the current time at TIMESTAMP_INDEX = 0, writes the
resulting array to the cache file, deletes the timestamp again and
returns the rest.  Result: (file content written, value returned). -/
def fetchRelays (t : Rat) (decoded : List CacheEntry) :
    List CacheEntry × List CacheEntry :=
  let withTs := CacheEntry.num t :: decoded
  (withTs, withTs.tail)

/-- loadRelays from the source.  The file argument is the parsed content
of the cache artifact, none when opening or JSON-decoding it fails (the
source turns that into "Failed to read relay data file.").  A leading
element failing isinstance((float, int)) raises "Invalid relay data
format."; an empty array makes relays[TIMESTAMP_INDEX] raise IndexError
(uncaught here, caught by the bare except of getRelays); data 43200
seconds old or older raises "Relay data is outdated.".  On success the
timestamp is deleted and the remaining sequence returned unchanged. -/
def loadRelays (file : Option (List CacheEntry)) (now : Rat) :
    Except String (List CacheEntry) :=
  match file with
  | none => Except.error "Failed to read relay data file."
  | some relays =>
    match relays.head? with
    | none => Except.error "list index out of range"
    | some (CacheEntry.record _) => Except.error "Invalid relay data format."
    | some CacheEntry.other => Except.error "Invalid relay data format."
    | some (CacheEntry.num t) =>
      if now - t ≥ 43200 then Except.error "Relay data is outdated."
      else Except.ok relays.tail

/-- Boolean test that an Except value is an error. -/
def isError {ε α : Type} : Except ε α → Bool
  | Except.error _ => true
  | Except.ok _ => false

/-- getRelays from the source: when the cache file exists, try loadRelays
and fall back to the fetched directory on any exception; when it does not
exist, fetch directly.  The fetched argument stands for the sequence the
fetch path would produce. -/
def getRelays (fileIsFile : Bool) (file : Option (List CacheEntry))
    (now : Rat) (fetched : List CacheEntry) : List CacheEntry :=
  if fileIsFile then
    match loadRelays file now with
    | Except.ok rs => rs
    | Except.error _ => fetched
  else fetched

deriving instance DecidableEq for Except

/-- Operating-system constant of the source (UNIX / WINDOWS), selecting
the ping invocation syntax and the summary-line grammar. -/
inductive Os where
  | unix
  | windows
deriving DecidableEq

/-- Python exceptions that escape parsePing uncaught: the IndexError of
`lines[-1]` on empty output and of `rtts[2]` when fewer than three values
were parsed, both raised outside the try block. -/
inductive PyError where
  | indexError
deriving DecidableEq

/-- Python str.splitlines worker: cur is the current line read so far,
reversed.  Handles the newline conventions that occur in ping output
(LF, CR, CRLF); a terminator at the end of the input does not open a new
empty line, and the empty string has no lines. -/
def splitLinesGo : List Char → List Char → List (List Char)
  | [], cur => if cur.isEmpty then [] else [cur.reverse]
  | '\r' :: '\n' :: rest, cur => cur.reverse :: splitLinesGo rest []
  | '\r' :: rest, cur => cur.reverse :: splitLinesGo rest []
  | '\n' :: rest, cur => cur.reverse :: splitLinesGo rest []
  | c :: rest, cur => splitLinesGo rest (c :: cur)

/-- Python str.splitlines on the character list of the output. -/
def splitLines (cs : List Char) : List (List Char) :=
  splitLinesGo cs []

/-- Whitespace stripped by Python str.strip and accepted around float
literals (space, tab, CR, LF; Python also strips \x0b, \x0c and some
unicode spaces, none of which occur in ping output). -/
def isPySpace (c : Char) : Bool :=
  c.isWhitespace

/-- Python str.strip: drop whitespace from both ends. -/
def pyStrip (cs : List Char) : List Char :=
  ((cs.dropWhile isPySpace).reverse.dropWhile isPySpace).reverse

/-- Python str.split with a one-character separator: every occurrence
splits, empty pieces are kept, and the result is never empty. -/
def pySplitChar (sep : Char) : List Char → List (List Char)
  | [] => [[]]
  | c :: rest =>
    if c == sep then [] :: pySplitChar sep rest
    else
      match pySplitChar sep rest with
      | [] => [[c]]
      | g :: gs => (c :: g) :: gs

/-- Python str.replace of the substring ms by the empty string: remove
every non-overlapping occurrence, scanning left to right. -/
def removeMs : List Char → List Char
  | 'm' :: 's' :: rest => removeMs rest
  | c :: rest => c :: removeMs rest
  | [] => []

/-- Decimal digits to a natural number. -/
def digitsToNat (cs : List Char) : Nat :=
  cs.foldl (fun n c => n * 10 + (c.toNat - 48)) 0

/-- Magnitude of a Python float literal: plain decimal notation, an
optional fraction part, at least one digit overall.  Returns the integer
mantissa and the number of fraction digits.  (Python float() additionally
accepts exponents, inf and nan, which never occur in ping summaries.) -/
def parseFloatMag (cs : List Char) : Option (Int × Nat) :=
  let intPart := cs.takeWhile Char.isDigit
  let rest := cs.dropWhile Char.isDigit
  match rest with
  | [] =>
    if intPart.isEmpty then none
    else some ((digitsToNat intPart : Int), 0)
  | '.' :: fracRest =>
    let fracPart := fracRest.takeWhile Char.isDigit
    let rest2 := fracRest.dropWhile Char.isDigit
    if rest2.isEmpty && !(intPart.isEmpty && fracPart.isEmpty) then
      some (((digitsToNat intPart) * 10 ^ fracPart.length + digitsToNat fracPart : Int),
        fracPart.length)
    else none
  | _ => none

/-- Python float() on a string: strip whitespace, read an optional sign
and a decimal magnitude; none models a raised ValueError. -/
def parseFloat (cs : List Char) : Option Rat :=
  match pyStrip cs with
  | '+' :: rest => (parseFloatMag rest).map (fun p => mkRat p.1 (10 ^ p.2))
  | '-' :: rest => (parseFloatMag rest).map (fun p => mkRat (-p.1) (10 ^ p.2))
  | rest => (parseFloatMag rest).map (fun p => mkRat p.1 (10 ^ p.2))

/-- Body of the try block of parsePing, applied to the final non-empty
line.  UNIX: take the segment after the last `=`, strip it, keep the part
before the first space, split it on `/` and parse each piece as a float.
WINDOWS: split the line on commas and for each field parse as a float the
segment after the last `=`, stripped, with every `ms` removed.  none
models a raised exception, which the source catches and converts to the
null triple. -/
def parsePingTry (resultsLine : List Char) (platform : Os) : Option (List Rat) :=
  match platform with
  | Os.unix =>
    let seg := pyStrip ((pySplitChar '=' resultsLine).getLastD [])
    let first := (pySplitChar ' ' seg).headD []
    (pySplitChar '/' first).mapM parseFloat
  | Os.windows =>
    (pySplitChar ',' resultsLine).mapM
      (fun part => parseFloat (removeMs (pyStrip ((pySplitChar '=' part).getLastD []))))

/-- parsePing from the source: keep the non-blank lines of the output,
take the last one (`lines[-1]`, an uncaught IndexError when there is
none), run the platform parse under the try block (a caught exception
gives the null triple), and return the first three parsed values
positionally (`rtts[0], rtts[1], rtts[2]`, an uncaught IndexError when
fewer than three were parsed, since that indexing sits outside the try
block). -/
def parsePing (pingOutput : String) (platform : Os) :
    Except PyError (Option Rat × Option Rat × Option Rat) :=
  let lines := (splitLines pingOutput.data).filter (fun l => !(pyStrip l).isEmpty)
  match lines.getLast? with
  | none => Except.error PyError.indexError
  | some resultsLine =>
    match parsePingTry resultsLine platform with
    | none => Except.ok (none, none, none)
    | some rtts =>
      match rtts.get? 0, rtts.get? 1, rtts.get? 2 with
      | some a, some b, some c => Except.ok (some a, some b, some c)
      | _, _, _ => Except.error PyError.indexError

/-- Null-or-number latency as stored by the probing loop: ping returns
None for an unreachable host and a float otherwise, and the loop stores
the value in the record's round-trip-time field. -/
def rttValue : Option Rat → Value
  | some x => Value.num x
  | none => Value.null

/-- The probing loop of the main block (`for index, relay in
enumerate(relays): ... relays[index][RTT] = rtt`), with the index counter
threaded explicitly; measure i is the average round-trip time the ping
call reports for the record at index i (none for an unreachable host).
Besides the updated records, the log of writes the loop performs is
returned: one (index, attribute) pair per dict assignment executed. -/
def probeGo (measure : Nat → Option Rat) :
    Nat → List Relay → List Relay × List (Nat × String)
  | _, [] => ([], [])
  | i, r :: rest =>
    let out := probeGo measure (i + 1) rest
    (setAttr r RTT (rttValue (measure i)) :: out.1, (i, RTT) :: out.2)

/-- The probing loop applied to the filtered candidate list. -/
def probeLoop (relays : List Relay) (measure : Nat → Option Rat) :
    List Relay × List (Nat × String) :=
  probeGo measure 0 relays

/-- The record's round-trip-time value, as read by the sort and min/max
keys `lambda r: r[RTT]` of the source.  Python raises KeyError on a
record without the attribute; the source applies the key only to
reachable records, which always carry it, and the theorems assume as
much. -/
def rttVal (r : Relay) : Value :=
  (lookupAttr r RTT).getD Value.null

/-- Stable insertion of a record into a descending-sorted list: the
record is placed before the first strictly smaller one, so records of
equal latency keep their original relative order, as Python sorted
does. -/
def insertDesc (r : Relay) : List Relay → List Relay
  | [] => [r]
  | x :: xs =>
    if Value.geB (rttVal r) (rttVal x) then r :: x :: xs
    else x :: insertDesc r xs

/-- sorted(reachableRelays, key=lambda r: r[RTT], reverse=True) from the
source: stable descending sort by measured latency. -/
def sortDesc : List Relay → List Relay
  | [] => []
  | r :: rest => insertDesc r (sortDesc rest)

/-- descendingRelays from the source: the unreachable records (null
latency) followed by the reachable ones in descending latency order. -/
def descendingRelays (relays : List Relay) : List Relay :=
  relays.filter (eqAttr RTT Value.null)
    ++ sortDesc (relays.filter (neqAttr RTT Value.null))

/-- Python min(list, key=lambda r: r[RTT]) on the non-empty list
hd :: tl: scan left to right, keeping the first record whose key is
strictly smaller than the best so far. -/
def minByRtt (hd : Relay) (tl : List Relay) : Relay :=
  tl.foldl (fun best r => if Value.ltB (rttVal r) (rttVal best) then r else best) hd

/-- Python max(list, key=lambda r: r[RTT]) on the non-empty list
hd :: tl: scan left to right, keeping the first record whose key is
strictly larger than the best so far. -/
def maxByRtt (hd : Relay) (tl : List Relay) : Relay :=
  tl.foldl (fun best r => if Value.gtB (rttVal r) (rttVal best) then r else best) hd

/-- lowestLatency from the source: min over the reachable records.
Python min raises ValueError on an empty sequence; the source guards the
call with the empty-reachable-set check, and none models the guarded
case. -/
def lowestLatency : List Relay → Option Relay
  | [] => none
  | hd :: tl => some (minByRtt hd tl)

/-- maxLatency from the source: max over the reachable records. -/
def maxLatency : List Relay → Option Relay
  | [] => none
  | hd :: tl => some (maxByRtt hd tl)

/-- Outcome of a run fragment: a value, or failure(msg) — the message
printed to stderr followed by sys.exit(1). -/
inductive RunResult (α : Type) where
  | ok : α → RunResult α
  | fatal : String → RunResult α
deriving DecidableEq

/-- The args.random branch of the main block: the pool is the full
filtered candidate list when no latency testing was performed and the
reachable list otherwise; an empty pool is a reported fatal error, and
otherwise random.choice picks an element of the pool, modelled by an
arbitrary draw index k taken modulo the pool size. -/
def randomBranch (pingRequested : Bool) (relays reachable : List Relay)
    (k : Nat) : RunResult Relay :=
  let pool := if !pingRequested then relays else reachable
  if h : pool = [] then
    RunResult.fatal "No reachable relays available for random selection."
  else
    RunResult.ok (pool.get ⟨k % pool.length, Nat.mod_lt k (List.length_pos.mpr h)⟩)

end Mulping

namespace Mulping

/-- C5: the source applies `filter(filterAnd(relayConditions), relays)`;
for every condition list and every relay sequence, the filtered result is
an order-preserving subsequence of the input, and every record kept
satisfies the combined predicate evaluated on it directly. -/
theorem filter_sublist_sound (fs : List (Relay → Bool)) (R : List Relay) :
    (R.filter (filterAnd fs)).Sublist R ∧
      ∀ r ∈ R.filter (filterAnd fs), filterAnd fs r = true := by
  refine ⟨List.filter_sublist R, ?_⟩
  intro r hr
  exact List.of_mem_filter hr

/-- Concrete instance of filter_sublist_sound: the active record in a
two-record directory passes the activity filter. -/
theorem filter_sublist_sound_witness :
    filterAnd [eqAttr ACTIVE (Value.bool true)]
      [(ACTIVE, Value.bool true), (HOSTNAME, Value.str "a")] = true :=
  (filter_sublist_sound [eqAttr ACTIVE (Value.bool true)]
      [[(ACTIVE, Value.bool true), (HOSTNAME, Value.str "a")],
       [(ACTIVE, Value.bool false)]]).2
    [(ACTIVE, Value.bool true), (HOSTNAME, Value.str "a")] (by decide)

/-- C6: a record that lacks the queried attribute never matches the
equality, inequality, or greater-or-equal predicate built for that
attribute: absence is never a match, for the positive or negative form. -/
theorem absent_attribute_never_matches (r : Relay) (a : String) (v : Value)
    (h : lookupAttr r a = none) :
    eqAttr a v r = false ∧ neqAttr a v r = false ∧ geqAttr a v r = false := by
  unfold eqAttr neqAttr geqAttr
  rw [h]
  exact ⟨rfl, rfl, rfl⟩

/-- Concrete instance of absent_attribute_never_matches on a record that
has no country_code attribute. -/
theorem absent_attribute_never_matches_witness :
    eqAttr COUNTRY_CODE (Value.str "se") [(HOSTNAME, Value.str "a")] = false ∧
      neqAttr COUNTRY_CODE (Value.str "se") [(HOSTNAME, Value.str "a")] = false ∧
      geqAttr COUNTRY_CODE (Value.str "se") [(HOSTNAME, Value.str "a")] = false :=
  absent_attribute_never_matches [(HOSTNAME, Value.str "a")] COUNTRY_CODE
    (Value.str "se") (by decide)

/-- C7: the city-exclusion filter (AND-aggregation of notInCity over the
user-supplied pairs, as built by getFilter) retains every record that
lacks country_code or city_code, because each pair's test is the negation
of a conjunction of equality predicates and the missing attribute makes
the conjunction false; the atomic neqAttr, in contrast, evaluates false on
such a record. -/
theorem city_exclusion_retains_missing_attributes
    (pairs : List (String × String)) (r : Relay) (hne : pairs ≠ [])
    (h : lookupAttr r COUNTRY_CODE = none ∨ lookupAttr r CITY_CODE = none) :
    filterAnd (pairs.map notInCity) r = true ∧
      ∀ v, lookupAttr r CITY_CODE = none → neqAttr CITY_CODE v r = false := by
  constructor
  · have hfalse : ∀ ct : String × String, notInCity ct r = true := by
      intro ct
      unfold notInCity
      rcases h with h | h
      · have : eqAttr COUNTRY_CODE (Value.str ct.1) r = false := by
          unfold eqAttr
          rw [h]
        simp [this]
      · have : eqAttr CITY_CODE (Value.str ct.2) r = false := by
          unfold eqAttr
          rw [h]
        simp [this]
    unfold filterAnd
    rw [List.all_eq_true]
    intro f hf
    rcases List.mem_map.mp hf with ⟨ct, _, rfl⟩
    exact hfalse ct
  · intro v hv
    unfold neqAttr
    rw [hv]

/-- Concrete instance of city_exclusion_retains_missing_attributes: a
record with a hostname but no location attributes survives the exclusion
of the (se, got) city pair. -/
theorem city_exclusion_retains_missing_attributes_witness :
    filterAnd ([(("se", "got") : String × String)].map notInCity)
      [(HOSTNAME, Value.str "a")] = true :=
  (city_exclusion_retains_missing_attributes [("se", "got")]
    [(HOSTNAME, Value.str "a")] (by decide) (Or.inl (by decide))).1

/-- C1: on the Windows summary line `Minimum = 1ms, Maximum = 3ms,
Average = 2ms`, parsePing returns the three labelled values in textual
order (Minimum, Maximum, Average), that is the triple (1, 3, 2) — not
(1, 2, 3) as the (min, avg, max) contract requires.  The labels are
stripped but the positions are not remapped, so the second component,
which the ping caller unpacks as the round-trip time, holds the Maximum
on Windows. -/
theorem parsePing_windows_field_order :
    parsePing "Approximate round trip times in milli-seconds:\n    Minimum = 1ms, Maximum = 3ms, Average = 2ms\n"
        Os.windows = Except.ok (some 1, some 3, some 2)
    ∧ parsePing "Approximate round trip times in milli-seconds:\n    Minimum = 1ms, Maximum = 3ms, Average = 2ms\n"
        Os.windows ≠ Except.ok (some 1, some 2, some 3) := by
  constructor
  · decide
  · decide

/-- C2: parse failures are not always soft.  Empty output (or output that
is blank after discarding empty lines) makes `lines[-1]` raise IndexError,
and output whose summary line parses to fewer than three values makes
`rtts[2]` raise IndexError; both indexings sit outside the try block, so
the exception propagates to the caller instead of yielding the null
triple.  Exceptions raised inside the try block (for example a
non-numeric token) are caught and do yield the null triple. -/
theorem parsePing_index_error_escapes :
    parsePing "" Os.unix = Except.error PyError.indexError
    ∧ parsePing "" Os.windows = Except.error PyError.indexError
    ∧ parsePing "   \n  \n" Os.unix = Except.error PyError.indexError
    ∧ parsePing "round-trip min/avg/max = 5 ms" Os.unix
        = Except.error PyError.indexError
    ∧ parsePing "Minimum = 1ms, Maximum = 3ms" Os.windows
        = Except.error PyError.indexError
    ∧ parsePing "no timing information here" Os.unix = Except.ok (none, none, none)
    ∧ parsePing "no timing information here" Os.windows
        = Except.ok (none, none, none) := by
  refine ⟨by decide, by decide, by decide, by decide, by decide, by decide, by decide⟩

/-- Helper fact for a fresh cache: one second after the epoch is within
the 43200-second staleness window of a snapshot written at the epoch. -/
lemma fresh_at_one : (1 : Rat) < 0 + 43200 := by norm_num

/-- Helper fact for a stale cache: a snapshot written at the epoch is
43200 seconds old when the clock reads 43200. -/
lemma stale_at_43200 : (0 : Rat) ≤ 43200 - 43200 := by norm_num

/-- C3: writing a snapshot at time t (fetchRelays persists the timestamp
followed by the records) and loading it back at any time strictly before
t + 43200 yields exactly the original relay sequence in order, with the
timestamp stripped and no timestamp entry in the returned sequence; the
value fetchRelays itself returns equals the decoded sequence as well. -/
theorem cache_round_trip (rs : List Relay) (t now : Rat)
    (h : now < t + 43200) :
    loadRelays (some ((fetchRelays t (rs.map CacheEntry.record)).1)) now
        = Except.ok (rs.map CacheEntry.record)
    ∧ (fetchRelays t (rs.map CacheEntry.record)).2 = rs.map CacheEntry.record
    ∧ ∀ e ∈ rs.map CacheEntry.record, ∃ r, e = CacheEntry.record r := by
  have hne : ¬ (now - t ≥ 43200) := by linarith
  refine ⟨?_, rfl, ?_⟩
  · simp [fetchRelays, loadRelays, hne]
  · intro e he
    rcases List.mem_map.mp he with ⟨r, _, rfl⟩
    exact ⟨r, rfl⟩

/-- Concrete instance of cache_round_trip: a one-record snapshot written
at time 0 reads back unchanged at time 1. -/
theorem cache_round_trip_witness :
    loadRelays
        (some ((fetchRelays 0
          ([[(HOSTNAME, Value.str "se-got-wg-001")]].map CacheEntry.record)).1)) 1
      = Except.ok ([[(HOSTNAME, Value.str "se-got-wg-001")]].map CacheEntry.record) :=
  (cache_round_trip [[(HOSTNAME, Value.str "se-got-wg-001")]] 0 1 fresh_at_one).1

/-- C4: loadRelays fails exactly when the artifact is unreadable or
corrupt (file = none), when it does not start with a numeric element
(covering the empty array, whose missing leading element raises
IndexError), or when now - timestamp ≥ 43200; a snapshot with timestamp
t ≤ now - 43200 is always rejected; and whenever loadRelays fails,
getRelays takes the fetch path. -/
theorem loadRelays_error_characterization (file : Option (List CacheEntry))
    (now t : Rat) (rest fetched : List CacheEntry) :
    (isError (loadRelays file now) = true ↔
       file = none
       ∨ (∃ l, file = some l ∧ ∀ u r2, l ≠ CacheEntry.num u :: r2)
       ∨ (∃ u r2, file = some (CacheEntry.num u :: r2) ∧ now - u ≥ 43200))
    ∧ (t ≤ now - 43200 →
        isError (loadRelays (some (CacheEntry.num t :: rest)) now) = true)
    ∧ (isError (loadRelays file now) = true →
        getRelays true file now fetched = fetched) := by
  refine ⟨?_, ?_, ?_⟩
  · cases file with
    | none => simp [loadRelays, isError]
    | some l =>
      cases l with
      | nil =>
        simp only [loadRelays, List.head?_nil, isError]
        constructor
        · intro _
          exact Or.inr (Or.inl ⟨[], rfl, by intro u r2 hcontra; cases hcontra⟩)
        · intro _
          trivial
      | cons hd tl =>
        cases hd with
        | num u =>
          by_cases hstale : now - u ≥ 43200
          · simp only [loadRelays, List.head?_cons, if_pos hstale, isError]
            constructor
            · intro _
              exact Or.inr (Or.inr ⟨u, tl, rfl, hstale⟩)
            · intro _
              trivial
          · simp only [loadRelays, List.head?_cons, if_neg hstale, isError]
            constructor
            · intro hcontra
              cases hcontra
            · rintro (hcontra | ⟨l2, hl2, hall⟩ | ⟨u2, r2, heq, hs⟩)
              · cases hcontra
              · cases Option.some.inj hl2
                exact absurd rfl (hall u tl)
              · obtain ⟨h1, h2⟩ := List.cons.inj (Option.some.inj heq)
                cases CacheEntry.num.inj h1
                exact absurd hs hstale
        | record r =>
          simp only [loadRelays, List.head?_cons, isError]
          constructor
          · intro _
            refine Or.inr (Or.inl ⟨CacheEntry.record r :: tl, rfl, ?_⟩)
            intro u r2 hcontra
            cases List.cons.inj hcontra |>.1
          · intro _
            trivial
        | other =>
          simp only [loadRelays, List.head?_cons, isError]
          constructor
          · intro _
            refine Or.inr (Or.inl ⟨CacheEntry.other :: tl, rfl, ?_⟩)
            intro u r2 hcontra
            cases List.cons.inj hcontra |>.1
          · intro _
            trivial
  · intro hstale
    have h : now - t ≥ 43200 := by linarith
    simp [loadRelays, isError, if_pos h]
  · intro herr
    unfold getRelays
    cases hl : loadRelays file now with
    | ok rs =>
      rw [hl] at herr
      cases herr
    | error m => simp

/-- Concrete instance of loadRelays_error_characterization: a snapshot
timestamped at the epoch is rejected when the clock reads 43200. -/
theorem loadRelays_error_characterization_witness :
    isError (loadRelays (some [CacheEntry.num 0]) 43200) = true :=
  (loadRelays_error_characterization none 43200 0 [] []).2.1 stale_at_43200

/-- Value.leB on two numbers is the rational comparison. -/
lemma leB_num {x y : Rat} : Value.leB (Value.num x) (Value.num y) = true ↔ x ≤ y := by
  simp [Value.leB]

/-- Value.ltB on two numbers is the rational comparison. -/
lemma ltB_num {x y : Rat} : Value.ltB (Value.num x) (Value.num y) = true ↔ x < y := by
  simp [Value.ltB]

/-- Value.gtB on two numbers is the reversed rational comparison. -/
lemma gtB_num {x y : Rat} : Value.gtB (Value.num x) (Value.num y) = true ↔ y < x := by
  simp [Value.gtB, Value.ltB]

/-- Python min with the latency key returns a member of the list whose
latency is minimal, whenever every member carries a numeric latency. -/
lemma minByRtt_spec (tl : List Relay) (hd : Relay)
    (hnum : ∀ r ∈ hd :: tl, ∃ x, rttVal r = Value.num x) :
    minByRtt hd tl ∈ hd :: tl
      ∧ ∀ r ∈ hd :: tl, Value.leB (rttVal (minByRtt hd tl)) (rttVal r) = true := by
  induction tl generalizing hd with
  | nil =>
    refine ⟨by simp [minByRtt], ?_⟩
    intro r hr
    obtain rfl : r = hd := by simpa using hr
    obtain ⟨x, hx⟩ := hnum r (by simp)
    simp [minByRtt, hx, leB_num]
  | cons b rest ih =>
    obtain ⟨xh, hxh⟩ := hnum hd (by simp)
    obtain ⟨xb, hxb⟩ := hnum b (by simp)
    by_cases hlt : Value.ltB (rttVal b) (rttVal hd) = true
    · have hunfold : minByRtt hd (b :: rest) = minByRtt b rest := by
        simp [minByRtt, hlt]
      have hnum2 : ∀ r ∈ b :: rest, ∃ x, rttVal r = Value.num x := by
        intro r hr
        rcases List.mem_cons.mp hr with rfl | hr2
        · exact ⟨xb, hxb⟩
        · exact hnum r (by simp [hr2])
      obtain ⟨hmem, hbound⟩ := ih b hnum2
      obtain ⟨xm, hxm⟩ := hnum2 _ hmem
      have hmb : xm ≤ xb := by
        have h := hbound b (by simp)
        rwa [hxm, hxb, leB_num] at h
      have hbh : xb < xh := by
        rwa [hxb, hxh, ltB_num] at hlt
      refine ⟨?_, ?_⟩
      · rw [hunfold]
        rcases List.mem_cons.mp hmem with h | h
        · simp [h]
        · simp [h]
      · intro r hr
        rw [hunfold]
        rcases List.mem_cons.mp hr with rfl | hr2
        · rw [hxm, hxh, leB_num]
          linarith
        · rcases List.mem_cons.mp hr2 with rfl | hr3
          · exact hbound r (by simp)
          · exact hbound r (by simp [hr3])
    · have hunfold : minByRtt hd (b :: rest) = minByRtt hd rest := by
        simp [minByRtt, hlt]
      have hnum2 : ∀ r ∈ hd :: rest, ∃ x, rttVal r = Value.num x := by
        intro r hr
        rcases List.mem_cons.mp hr with rfl | hr2
        · exact ⟨xh, hxh⟩
        · exact hnum r (by simp [hr2])
      obtain ⟨hmem, hbound⟩ := ih hd hnum2
      obtain ⟨xm, hxm⟩ := hnum2 _ hmem
      have hmh : xm ≤ xh := by
        have h := hbound hd (by simp)
        rwa [hxm, hxh, leB_num] at h
      have hhb : xh ≤ xb := by
        rw [hxb, hxh, ltB_num] at hlt
        exact le_of_not_lt hlt
      refine ⟨?_, ?_⟩
      · rw [hunfold]
        rcases List.mem_cons.mp hmem with h | h
        · simp [h]
        · simp [h]
      · intro r hr
        rw [hunfold]
        rcases List.mem_cons.mp hr with rfl | hr2
        · exact hbound r (by simp)
        · rcases List.mem_cons.mp hr2 with rfl | hr3
          · rw [hxm, hxb, leB_num]
            linarith
          · exact hbound r (by simp [hr3])

/-- Python max with the latency key returns a member of the list whose
latency is maximal, whenever every member carries a numeric latency. -/
lemma maxByRtt_spec (tl : List Relay) (hd : Relay)
    (hnum : ∀ r ∈ hd :: tl, ∃ x, rttVal r = Value.num x) :
    maxByRtt hd tl ∈ hd :: tl
      ∧ ∀ r ∈ hd :: tl, Value.leB (rttVal r) (rttVal (maxByRtt hd tl)) = true := by
  induction tl generalizing hd with
  | nil =>
    refine ⟨by simp [maxByRtt], ?_⟩
    intro r hr
    obtain rfl : r = hd := by simpa using hr
    obtain ⟨x, hx⟩ := hnum r (by simp)
    simp [maxByRtt, hx, leB_num]
  | cons b rest ih =>
    obtain ⟨xh, hxh⟩ := hnum hd (by simp)
    obtain ⟨xb, hxb⟩ := hnum b (by simp)
    by_cases hgt : Value.gtB (rttVal b) (rttVal hd) = true
    · have hunfold : maxByRtt hd (b :: rest) = maxByRtt b rest := by
        simp [maxByRtt, hgt]
      have hnum2 : ∀ r ∈ b :: rest, ∃ x, rttVal r = Value.num x := by
        intro r hr
        rcases List.mem_cons.mp hr with rfl | hr2
        · exact ⟨xb, hxb⟩
        · exact hnum r (by simp [hr2])
      obtain ⟨hmem, hbound⟩ := ih b hnum2
      obtain ⟨xm, hxm⟩ := hnum2 _ hmem
      have hmb : xb ≤ xm := by
        have h := hbound b (by simp)
        rwa [hxm, hxb, leB_num] at h
      have hbh : xh < xb := by
        rwa [hxb, hxh, gtB_num] at hgt
      refine ⟨?_, ?_⟩
      · rw [hunfold]
        rcases List.mem_cons.mp hmem with h | h
        · simp [h]
        · simp [h]
      · intro r hr
        rw [hunfold]
        rcases List.mem_cons.mp hr with rfl | hr2
        · rw [hxm, hxh, leB_num]
          linarith
        · rcases List.mem_cons.mp hr2 with rfl | hr3
          · exact hbound r (by simp)
          · exact hbound r (by simp [hr3])
    · have hunfold : maxByRtt hd (b :: rest) = maxByRtt hd rest := by
        simp [maxByRtt, hgt]
      have hnum2 : ∀ r ∈ hd :: rest, ∃ x, rttVal r = Value.num x := by
        intro r hr
        rcases List.mem_cons.mp hr with rfl | hr2
        · exact ⟨xh, hxh⟩
        · exact hnum r (by simp [hr2])
      obtain ⟨hmem, hbound⟩ := ih hd hnum2
      obtain ⟨xm, hxm⟩ := hnum2 _ hmem
      have hmh : xh ≤ xm := by
        have h := hbound hd (by simp)
        rwa [hxm, hxh, leB_num] at h
      have hhb : xb ≤ xh := by
        rw [hxb, hxh, gtB_num] at hgt
        exact le_of_not_lt hgt
      refine ⟨?_, ?_⟩
      · rw [hunfold]
        rcases List.mem_cons.mp hmem with h | h
        · simp [h]
        · simp [h]
      · intro r hr
        rw [hunfold]
        rcases List.mem_cons.mp hr with rfl | hr2
        · exact hbound r (by simp)
        · rcases List.mem_cons.mp hr2 with rfl | hr3
          · rw [hxm, hxb, leB_num]
            linarith
          · exact hbound r (by simp [hr3])

/-- C8: on the fixture with measured latencies [5, 1, 3], the source's
descending sort orders the reachable set [5, 3, 1], so the ascending
ordering by average latency is [1, 3, 5]; the minimum-latency selection
returns the 1 ms record and the maximum-latency selection the 5 ms
record; and in general, on every non-empty reachable set whose records
carry numeric latencies, lowestLatency and maxLatency return members
minimising and maximising the measured average round-trip time. -/
theorem ranking_by_latency :
    descendingRelays
        [[(HOSTNAME, Value.str "r5"), (RTT, Value.num 5)],
         [(HOSTNAME, Value.str "r1"), (RTT, Value.num 1)],
         [(HOSTNAME, Value.str "r3"), (RTT, Value.num 3)]]
      = [[(HOSTNAME, Value.str "r5"), (RTT, Value.num 5)],
         [(HOSTNAME, Value.str "r3"), (RTT, Value.num 3)],
         [(HOSTNAME, Value.str "r1"), (RTT, Value.num 1)]]
    ∧ (descendingRelays
        [[(HOSTNAME, Value.str "r5"), (RTT, Value.num 5)],
         [(HOSTNAME, Value.str "r1"), (RTT, Value.num 1)],
         [(HOSTNAME, Value.str "r3"), (RTT, Value.num 3)]]).reverse
      = [[(HOSTNAME, Value.str "r1"), (RTT, Value.num 1)],
         [(HOSTNAME, Value.str "r3"), (RTT, Value.num 3)],
         [(HOSTNAME, Value.str "r5"), (RTT, Value.num 5)]]
    ∧ lowestLatency
        [[(HOSTNAME, Value.str "r5"), (RTT, Value.num 5)],
         [(HOSTNAME, Value.str "r1"), (RTT, Value.num 1)],
         [(HOSTNAME, Value.str "r3"), (RTT, Value.num 3)]]
      = some [(HOSTNAME, Value.str "r1"), (RTT, Value.num 1)]
    ∧ maxLatency
        [[(HOSTNAME, Value.str "r5"), (RTT, Value.num 5)],
         [(HOSTNAME, Value.str "r1"), (RTT, Value.num 1)],
         [(HOSTNAME, Value.str "r3"), (RTT, Value.num 3)]]
      = some [(HOSTNAME, Value.str "r5"), (RTT, Value.num 5)]
    ∧ (∀ (hd : Relay) (tl : List Relay),
        (∀ r ∈ hd :: tl, ∃ x, rttVal r = Value.num x) →
        ∀ m, lowestLatency (hd :: tl) = some m →
          m ∈ hd :: tl ∧ ∀ r ∈ hd :: tl, Value.leB (rttVal m) (rttVal r) = true)
    ∧ (∀ (hd : Relay) (tl : List Relay),
        (∀ r ∈ hd :: tl, ∃ x, rttVal r = Value.num x) →
        ∀ m, maxLatency (hd :: tl) = some m →
          m ∈ hd :: tl ∧ ∀ r ∈ hd :: tl, Value.leB (rttVal r) (rttVal m) = true) := by
  refine ⟨by decide, by decide, by decide, by decide, ?_, ?_⟩
  · intro hd tl hnum m hm
    have hm2 : m = minByRtt hd tl := by
      simpa [lowestLatency] using hm.symm
    rw [hm2]
    exact minByRtt_spec tl hd hnum
  · intro hd tl hnum m hm
    have hm2 : m = maxByRtt hd tl := by
      simpa [maxLatency] using hm.symm
    rw [hm2]
    exact maxByRtt_spec tl hd hnum

/-- Concrete instance of ranking_by_latency: the latency of the
minimum-latency record of the fixture is at most the latency of its 5 ms
record. -/
theorem ranking_by_latency_witness :
    Value.leB (rttVal [(HOSTNAME, Value.str "r1"), (RTT, Value.num 1)])
      (rttVal [(HOSTNAME, Value.str "r5"), (RTT, Value.num 5)]) = true := by
  have h := ranking_by_latency.2.2.2.2.1
    [(HOSTNAME, Value.str "r5"), (RTT, Value.num 5)]
    [[(HOSTNAME, Value.str "r1"), (RTT, Value.num 1)],
     [(HOSTNAME, Value.str "r3"), (RTT, Value.num 3)]]
    (by
      intro r hr
      rcases List.mem_cons.mp hr with rfl | hr2
      · exact ⟨5, rfl⟩
      · rcases List.mem_cons.mp hr2 with rfl | hr3
        · exact ⟨1, rfl⟩
        · rcases List.mem_cons.mp hr3 with rfl | hr4
          · exact ⟨3, rfl⟩
          · cases hr4)
    [(HOSTNAME, Value.str "r1"), (RTT, Value.num 1)] (by decide)
  exact h.2 [(HOSTNAME, Value.str "r5"), (RTT, Value.num 5)] (by decide)

/-- C9: the args.random branch draws only from the reachable pool when
latency testing was performed and only from the full filtered pool
otherwise, and an empty pool produces the reported fatal error (message
on stderr, exit code 1), never an uncaught exception. -/
theorem random_selection_pool (relays reachable : List Relay) (k : Nat)
    (pingRequested : Bool) :
    (∀ r, randomBranch true relays reachable k = RunResult.ok r → r ∈ reachable)
    ∧ (∀ r, randomBranch false relays reachable k = RunResult.ok r → r ∈ relays)
    ∧ ((if !pingRequested then relays else reachable) = [] →
        randomBranch pingRequested relays reachable k
          = RunResult.fatal "No reachable relays available for random selection.") := by
  refine ⟨?_, ?_, ?_⟩
  · intro r hr
    unfold randomBranch at hr
    simp only [Bool.not_true, Bool.false_eq_true, if_false] at hr
    split at hr
    · cases hr
    · cases hr
      exact List.get_mem reachable _ _
  · intro r hr
    unfold randomBranch at hr
    simp only [Bool.not_false, if_true] at hr
    split at hr
    · cases hr
    · cases hr
      exact List.get_mem relays _ _
  · intro hpool
    unfold randomBranch
    simp only [dif_pos hpool]

/-- Concrete instance of random_selection_pool: with latency testing
performed and an empty reachable pool, the branch ends in the reported
fatal error. -/
theorem random_selection_pool_witness :
    randomBranch true [[(HOSTNAME, Value.str "a")]] [] 0
      = RunResult.fatal "No reachable relays available for random selection." :=
  (random_selection_pool [[(HOSTNAME, Value.str "a")]] [] 0 true).2.2 (by decide)

/-- Looking up the attribute just assigned returns the new value. -/
lemma lookupAttr_setAttr_self (r : Relay) (a : String) (v : Value) :
    lookupAttr (setAttr r a v) a = some v := by
  induction r with
  | nil => simp [setAttr, lookupAttr]
  | cons p rest ih =>
    by_cases h : p.1 == a
    · simp [setAttr, h, lookupAttr]
    · simp [setAttr, h, lookupAttr, ih]

/-- Assigning one attribute leaves every other attribute unchanged. -/
lemma lookupAttr_setAttr_ne (r : Relay) (a b : String) (v : Value)
    (hba : b ≠ a) :
    lookupAttr (setAttr r a v) b = lookupAttr r b := by
  have hab : (a == b) = false := by
    simp only [beq_eq_false_iff_ne, ne_eq]
    exact fun hc => hba hc.symm
  induction r with
  | nil => simp [setAttr, lookupAttr, hab]
  | cons p rest ih =>
    by_cases h : p.1 == a
    · have hp : p.1 = a := by simpa [beq_iff_eq] using h
      have hpb : (p.1 == b) = false := by
        rw [hp]
        exact hab
      simp [setAttr, h, lookupAttr, hab, hpb]
    · by_cases h2 : p.1 == b
      · simp [setAttr, h, lookupAttr, h2]
      · simp [setAttr, h, lookupAttr, h2, ih]

/-- Length is preserved by the probing loop. -/
lemma probeGo_length (measure : Nat → Option Rat) (rs : List Relay) :
    ∀ i0 : Nat, (probeGo measure i0 rs).1.length = rs.length := by
  induction rs with
  | nil => intro i0; rfl
  | cons r rest ih => intro i0; simp [probeGo, ih]

/-- Element j of the probing loop's output is element j of the input
with the round-trip time of draw index i0 + j assigned. -/
lemma probeGo_get (measure : Nat → Option Rat) (rs : List Relay) :
    ∀ i0 j : Nat,
      (probeGo measure i0 rs).1.get? j
        = (rs.get? j).map (fun r => setAttr r RTT (rttValue (measure (i0 + j)))) := by
  induction rs with
  | nil => intro i0 j; simp [probeGo]
  | cons r rest ih =>
    intro i0 j
    cases j with
    | zero => simp [probeGo]
    | succ j2 =>
      have h1 : (probeGo measure i0 (r :: rest)).1.get? (j2 + 1)
          = (probeGo measure (i0 + 1) rest).1.get? j2 := by
        simp [probeGo]
      have he : i0 + 1 + j2 = i0 + (j2 + 1) := by omega
      rw [h1, ih (i0 + 1) j2, he]
      simp

/-- The probing loop performs exactly one write per input record, at the
record's own index, always to the round-trip-time attribute. -/
lemma probeGo_log (measure : Nat → Option Rat) (rs : List Relay) :
    ∀ i0 : Nat,
      (probeGo measure i0 rs).2
        = (List.range' i0 rs.length).map (fun i => (i, RTT)) := by
  induction rs with
  | nil => intro i0; simp [probeGo]
  | cons r rest ih => intro i0; simp [probeGo, List.range', ih]

/-- C10: the probing loop writes each record's round-trip-time attribute
exactly once (its write log is exactly one (index, RTT) entry per input
record, in index order) and modifies nothing else: the output has the
input's length, each output record is the corresponding input record
with only the round-trip-time attribute assigned, every other attribute
reads back unchanged, and the round-trip-time attribute reads back as
the measured value. -/
theorem probe_loop_frame (relays : List Relay) (measure : Nat → Option Rat) :
    (probeLoop relays measure).1.length = relays.length
    ∧ (∀ i r2, relays.get? i = some r2 →
        (probeLoop relays measure).1.get? i
          = some (setAttr r2 RTT (rttValue (measure i))))
    ∧ (∀ i r2 out_r, relays.get? i = some r2 →
        (probeLoop relays measure).1.get? i = some out_r →
          (∀ b, b ≠ RTT → lookupAttr out_r b = lookupAttr r2 b)
          ∧ lookupAttr out_r RTT = some (rttValue (measure i)))
    ∧ (probeLoop relays measure).2
        = (List.range relays.length).map (fun i => (i, RTT)) := by
  refine ⟨probeGo_length measure relays 0, ?_, ?_, ?_⟩
  · intro i r2 hi
    rw [probeLoop, probeGo_get measure relays 0 i, hi]
    simp
  · intro i r2 out_r hi hout
    rw [probeLoop, probeGo_get measure relays 0 i, hi] at hout
    simp at hout
    rw [← hout]
    refine ⟨?_, ?_⟩
    · intro b hb
      exact lookupAttr_setAttr_ne r2 RTT b (rttValue (measure i)) hb
    · exact lookupAttr_setAttr_self r2 RTT (rttValue (measure i))
  · rw [probeLoop, probeGo_log measure relays 0, List.range_eq_range']

/-- Concrete instance of probe_loop_frame: probing a one-record directory
with a measured latency of 2 ms leaves the hostname unchanged and stores
2 in the round-trip-time attribute. -/
theorem probe_loop_frame_witness :
    lookupAttr (setAttr [(HOSTNAME, Value.str "a")] RTT (rttValue (some 2)))
        HOSTNAME
      = lookupAttr [(HOSTNAME, Value.str "a")] HOSTNAME
    ∧ lookupAttr (setAttr [(HOSTNAME, Value.str "a")] RTT (rttValue (some 2)))
        RTT
      = some (rttValue (some 2)) := by
  have h := (probe_loop_frame [[(HOSTNAME, Value.str "a")]]
      (fun _ => some 2)).2.2.1 0 [(HOSTNAME, Value.str "a")]
      (setAttr [(HOSTNAME, Value.str "a")] RTT (rttValue (some 2)))
      (by decide) (by decide)
  exact ⟨h.1 HOSTNAME (by decide), h.2⟩

end Mulping
